import Mathlib

/-!
Shallow embedding of the ownership/aliasing core of the `lock-free`
repository: `Cell` (src/cell.rs), `RefCell` with its borrow guards
(src/refcell.rs) and `Rc` (src/rc.rs).

Modelling conventions:
* `Cell<T>` stores one value; `set` overwrites it, `get` copies it out.
  In the embedding a `Cell` is its current content and `set` returns the
  updated cell (explicit state passing for the interior mutability).
* The borrow state `RefState` mirrors the Rust enum; the `i32` counter of
  `Shared(i32)` is an `Int` wrapped into [-2^31, 2^31) by `wrap32` at each
  arithmetic step (the source's plain i32 `shared + 1` / `shared - 1`),
  the release-profile two's-complement wrap — the same treatment as the
  mod-2^64 arithmetic of `Rc`'s `u64` refcount.
* A guard value in Rust is just a reference to the owning `RefCell`; in the
  embedding an operation "through a guard" takes the cell explicitly, and
  guard construction (`RefGuard::new`, `MutRefGuard::new`) returns the cell
  it captured, unchanged, since the constructors touch no state.
* The guards' `Drop` impls are functions on the recorded state returning
  `Option RefState`: `none` models the `unreachable!()` fatal branch,
  `some s` the normal bookkeeping transition to `s`.
* `Rc<T>`'s refcount is a `u64` updated by plain read/write; it is modelled
  as a `Nat` reduced mod `2^64` exactly where the Rust code computes
  `c + 1` / `c - 1` on `u64` (release-profile two's-complement wrap).
  A whole-allocation world `RcWorld` tracks the stored count, the number of
  live handles, whether the backing `Box` is still allocated, and how many
  times it was deallocated, so that the lifecycle claims are statable.
-/

namespace LockFree

/-- src/cell.rs: `Cell<T>` owns exactly one value. -/
structure Cell (T : Type) where
  value : T
  deriving DecidableEq

/-- src/cell.rs: `Cell::new(value)` takes ownership of the value. -/
def Cell.new {T : Type} (value : T) : Cell T :=
  ⟨value⟩

/-- src/cell.rs: `Cell::set(new_value)` unconditionally overwrites the slot. -/
def Cell.set {T : Type} (_c : Cell T) (new_value : T) : Cell T :=
  ⟨new_value⟩

/-- src/cell.rs: `Cell::get()` returns a copy of the current value. -/
def Cell.get {T : Type} (c : Cell T) : T :=
  c.value

/-- src/refcell.rs: the `RefState` enum (`Shared(i32)` count as `Int`). -/
inductive RefState where
  | Unshared : RefState
  | Shared : Int → RefState
  | Exclusive : RefState
  deriving DecidableEq

/-- src/refcell.rs: `RefCell<T>` owns a value and a `Cell<RefState>`. -/
structure RefCell (T : Type) where
  value : T
  state : RefState
  deriving DecidableEq

/-- src/refcell.rs: `RefCell::new(value)` starts in state `Unshared`. -/
def RefCell.new {T : Type} (value : T) : RefCell T :=
  ⟨value, RefState.Unshared⟩

/-- Release-profile two's-complement wrap of an `i32` arithmetic result
into [-2^31, 2^31): refcell.rs stores the shared count in an `i32`, so
`shared + 1` and `shared - 1` are plain i32 operations that wrap at the
type's bounds. -/
def wrap32 (x : Int) : Int :=
  (x + 2 ^ 31) % 2 ^ 32 - 2 ^ 31

/-- src/refcell.rs: `RefCell::borrow()`. Returns `some ()` when a `RefGuard`
is handed out (`Some(RefGuard::new(self))` in the source) together with the
cell after the `state.set`, and `none` with the unchanged cell otherwise.
The increment `shared + 1` is the source's i32 addition, so it wraps. -/
def RefCell.borrow {T : Type} (c : RefCell T) : Option Unit × RefCell T :=
  match c.state with
  | RefState.Unshared => (some (), { c with state := RefState.Shared 1 })
  | RefState.Shared shared =>
      (some (), { c with state := RefState.Shared (wrap32 (shared + 1)) })
  | RefState.Exclusive => (none, c)

/-- src/refcell.rs: `RefCell::borrow_mut()`. Hands out a `MutRefGuard`
(`some ()`) only from `Unshared`; every other state falls into the
catch-all `_ => None` with no `state.set`. -/
def RefCell.borrow_mut {T : Type} (c : RefCell T) : Option Unit × RefCell T :=
  match c.state with
  | RefState.Unshared => (some (), { c with state := RefState.Exclusive })
  | _ => (none, c)

/-- src/refcell.rs: `RefGuard::new(value)` only stores the reference; it
neither checks nor updates the borrow state, so the captured cell is
returned unchanged. -/
def RefGuard.new {T : Type} (c : RefCell T) : RefCell T :=
  c

/-- src/refcell.rs: `MutRefGuard::new(value)` only stores the reference; it
neither checks nor updates the borrow state. -/
def MutRefGuard.new {T : Type} (c : RefCell T) : RefCell T :=
  c

/-- src/refcell.rs: `impl Drop for RefGuard`, as a function of the recorded
state. `Exclusive | Unshared => unreachable!()` is `none`; `Shared(1)`
resets to `Unshared`; `Shared(shared)` decrements with the source's i32
subtraction, so it wraps. -/
def dropRefGuard : RefState → Option RefState
  | RefState.Exclusive => none
  | RefState.Unshared => none
  | RefState.Shared shared =>
      if shared = 1 then some RefState.Unshared
      else some (RefState.Shared (wrap32 (shared - 1)))

/-- src/refcell.rs: `impl Drop for MutRefGuard`: only `Exclusive` resets to
`Unshared`; the catch-all is `unreachable!()` (`none`). -/
def dropMutRefGuard : RefState → Option RefState
  | RefState.Exclusive => some RefState.Unshared
  | _ => none

/-- src/refcell.rs: `impl Deref for RefGuard` reads the cell's value. -/
def RefGuard.read {T : Type} (c : RefCell T) : T :=
  c.value

/-- src/refcell.rs: writing through `impl DerefMut for MutRefGuard`
(`*guard = v`) replaces the stored value; the borrow state is untouched. -/
def MutRefGuard.write {T : Type} (c : RefCell T) (v : T) : RefCell T :=
  { c with value := v }

/-- A client-visible operation on one `RefCell` and its guards. -/
inductive Op where
  | borrow : Op
  | borrowMut : Op
  | dropShared : Op
  | dropMut : Op
  deriving DecidableEq

/-- One `RefCell` together with the number of live `RefGuard`s and live
`MutRefGuard`s obtained from it. -/
structure World (T : Type) where
  cell : RefCell T
  liveShared : Nat
  liveMut : Nat
  deriving DecidableEq

/-- The world right after `RefCell::new(v)`: no guard exists. -/
def World.init {T : Type} (v : T) : World T :=
  ⟨RefCell.new v, 0, 0⟩

/-- One client step. `borrow`/`borrowMut` run the source functions and
record a new live guard exactly when one was returned. `dropShared` /
`dropMut` drop one live guard of that kind (a guard that does not exist
cannot be dropped, so the step is skipped when none is live); a `none`
from the drop bookkeeping is the fatal `unreachable!()` branch and leaves
the world as is (the invariant proofs show it is never reached). -/
def step {T : Type} (w : World T) : Op → World T
  | Op.borrow =>
      match w.cell.borrow with
      | (some _, c) => ⟨c, w.liveShared + 1, w.liveMut⟩
      | (none, c) => ⟨c, w.liveShared, w.liveMut⟩
  | Op.borrowMut =>
      match w.cell.borrow_mut with
      | (some _, c) => ⟨c, w.liveShared, w.liveMut + 1⟩
      | (none, c) => ⟨c, w.liveShared, w.liveMut⟩
  | Op.dropShared =>
      if w.liveShared = 0 then w
      else
        match dropRefGuard w.cell.state with
        | some s => ⟨{ w.cell with state := s }, w.liveShared - 1, w.liveMut⟩
        | none => w
  | Op.dropMut =>
      if w.liveMut = 0 then w
      else
        match dropMutRefGuard w.cell.state with
        | some s => ⟨{ w.cell with state := s }, w.liveShared, w.liveMut - 1⟩
        | none => w

/-- Run a sequence of client operations. -/
def run {T : Type} (w : World T) (ops : List Op) : World T :=
  ops.foldl step w

/-- The borrow-state invariant: the recorded state determines the live
guard counts exactly. -/
def Inv {T : Type} (w : World T) : Prop :=
  match w.cell.state with
  | RefState.Unshared => w.liveShared = 0 ∧ w.liveMut = 0
  | RefState.Shared n => n = (w.liveShared : Int) ∧ 1 ≤ w.liveShared ∧ w.liveMut = 0
  | RefState.Exclusive => w.liveShared = 0 ∧ w.liveMut = 1

/-- `true` when the number of live shared guards stays below 2^31 at every
point of the run, the final world included — the regime in which the i32
shared counter cannot overflow. -/
def sharedBoundedB {T : Type} (w : World T) : List Op → Bool
  | [] => decide (w.liveShared < 2 ^ 31)
  | op :: rest => decide (w.liveShared < 2 ^ 31) && sharedBoundedB (step w op) rest

/-- The cardinality of `u64`, the type of `Rc`'s refcount. -/
def U64 : Nat := 2 ^ 64

/-- A client-visible operation on the `Rc` handles of one allocation. -/
inductive RcOp where
  | clone : RcOp
  | drop : RcOp
  deriving DecidableEq

/-- One `RcInner` allocation (src/rc.rs) viewed together with its handles:
the stored `refcount: Cell<u64>` (a `Nat` < 2^64), the number of live `Rc`
handles pointing at it, whether the backing `Box` is still allocated, and
how many times `Box::from_raw` reclaimed it. -/
structure RcWorld where
  refcount : Nat
  live : Nat
  allocated : Bool
  frees : Nat
  deriving DecidableEq

/-- The world right after `Rc::new(v)`: one handle, refcount 1. -/
def RcWorld.init : RcWorld :=
  ⟨1, 1, true, 0⟩

/-- One client step on an `Rc` handle. Both operations need a live handle
to be invoked on, so they are skipped when none exists. `clone` is
src/rc.rs `impl Clone`: read `c`, write `c + 1` (u64 wrap), one more
handle. `drop` is src/rc.rs `impl Drop`: read `c`; if `c == 1` reclaim the
`Box` without touching the count, else write `c - 1` (u64 wrap) and keep
the allocation. -/
def stepRc (w : RcWorld) : RcOp → RcWorld
  | RcOp.clone =>
      if w.live = 0 then w
      else
        ⟨(w.refcount + 1) % U64, w.live + 1, w.allocated, w.frees⟩
  | RcOp.drop =>
      if w.live = 0 then w
      else
        if w.refcount = 1 then
          ⟨w.refcount, w.live - 1, false, w.frees + 1⟩
        else
          ⟨(w.refcount + (U64 - 1)) % U64, w.live - 1, w.allocated, w.frees⟩

/-- Run a sequence of `Rc` operations from an arbitrary world. -/
def runRcFrom (w : RcWorld) (ops : List RcOp) : RcWorld :=
  ops.foldl stepRc w

/-- Run a sequence of `Rc` operations from `Rc::new`'s world. -/
def runRc (ops : List RcOp) : RcWorld :=
  runRcFrom RcWorld.init ops

/-- `true` when the number of live handles stays below 2^64 at every point
of the run, the final world included — the no-refcount-overflow regime. -/
def liveBoundedB (w : RcWorld) : List RcOp → Bool
  | [] => decide (w.live < U64)
  | op :: rest => decide (w.live < U64) && liveBoundedB (stepRc w op) rest

/-- The `Rc` lifecycle invariant in the no-overflow regime: while the
allocation is live the stored count equals the number of live handles (at
least one), once it is gone no handle remains, and it was reclaimed
exactly once, exactly when it disappeared. -/
def RcInv (w : RcWorld) : Prop :=
  (w.allocated = true → w.refcount = w.live ∧ 1 ≤ w.live) ∧
  (w.allocated = false → w.live = 0) ∧
  w.frees = (if w.allocated then 0 else 1)

/-! ### The borrow-state invariant is preserved by every client step
(within the regime where the i32 shared counter cannot overflow) -/

theorem wrap32_id (x : Int) (h1 : -(2 ^ 31) ≤ x) (h2 : x < 2 ^ 31) : wrap32 x = x := by
  unfold wrap32
  omega

theorem wrap32_add_one (x : Int) : wrap32 (wrap32 x + 1) = wrap32 (x + 1) := by
  unfold wrap32
  omega

theorem sharedBoundedB_head {T : Type} {w : World T} {ops : List Op}
    (h : sharedBoundedB w ops = true) : w.liveShared < 2 ^ 31 := by
  cases ops with
  | nil => simpa [sharedBoundedB] using h
  | cons op rest =>
      simp only [sharedBoundedB, Bool.and_eq_true, decide_eq_true_eq] at h
      exact h.1

theorem inv_step {T : Type} {w : World T} (h : Inv w) (hpre : w.liveShared < 2 ^ 31)
    (op : Op) (hpost : (step w op).liveShared < 2 ^ 31) : Inv (step w op) := by
  obtain ⟨⟨val, st⟩, ls, lm⟩ := w
  have hpre' : ls < 2 ^ 31 := hpre
  cases op
  case borrow =>
    cases st with
    | Unshared =>
        simp only [Inv, step, RefCell.borrow] at h ⊢
        all_goals omega
    | Shared n =>
        have hpost' : ls + 1 < 2 ^ 31 := hpost
        simp only [Inv, step, RefCell.borrow] at h ⊢
        obtain ⟨h1, h2, h3⟩ := h
        refine ⟨?_, by omega, h3⟩
        rw [wrap32_id (n + 1) (by omega) (by omega)]
        omega
    | Exclusive => exact h
  case borrowMut =>
    cases st with
    | Unshared =>
        simp only [Inv, step, RefCell.borrow_mut] at h ⊢
        all_goals omega
    | Shared n => exact h
    | Exclusive => exact h
  case dropShared =>
    by_cases hls : ls = 0
    · subst hls
      exact h
    · cases st with
      | Unshared =>
          have hred : step ⟨⟨val, RefState.Unshared⟩, ls, lm⟩ Op.dropShared
              = ⟨⟨val, RefState.Unshared⟩, ls, lm⟩ := by
            simp [step, hls, dropRefGuard]
          rw [hred]
          exact h
      | Exclusive =>
          have hred : step ⟨⟨val, RefState.Exclusive⟩, ls, lm⟩ Op.dropShared
              = ⟨⟨val, RefState.Exclusive⟩, ls, lm⟩ := by
            simp [step, hls, dropRefGuard]
          rw [hred]
          exact h
      | Shared n =>
          by_cases hn : n = 1
          · subst hn
            have hred : step ⟨⟨val, RefState.Shared 1⟩, ls, lm⟩ Op.dropShared
                = ⟨⟨val, RefState.Unshared⟩, ls - 1, lm⟩ := by
              simp [step, hls, dropRefGuard]
            rw [hred]
            simp only [Inv] at h ⊢
            all_goals omega
          · have hred : step ⟨⟨val, RefState.Shared n⟩, ls, lm⟩ Op.dropShared
                = ⟨⟨val, RefState.Shared (wrap32 (n - 1))⟩, ls - 1, lm⟩ := by
              simp [step, hls, dropRefGuard, hn]
            rw [hred]
            simp only [Inv] at h ⊢
            obtain ⟨h1, h2, h3⟩ := h
            refine ⟨?_, by omega, h3⟩
            rw [wrap32_id (n - 1) (by omega) (by omega)]
            omega
  case dropMut =>
    by_cases hlm : lm = 0
    · subst hlm
      exact h
    · cases st with
      | Unshared =>
          have hred : step ⟨⟨val, RefState.Unshared⟩, ls, lm⟩ Op.dropMut
              = ⟨⟨val, RefState.Unshared⟩, ls, lm⟩ := by
            simp [step, hlm, dropMutRefGuard]
          rw [hred]
          exact h
      | Shared n =>
          have hred : step ⟨⟨val, RefState.Shared n⟩, ls, lm⟩ Op.dropMut
              = ⟨⟨val, RefState.Shared n⟩, ls, lm⟩ := by
            simp [step, hlm, dropMutRefGuard]
          rw [hred]
          exact h
      | Exclusive =>
          have hred : step ⟨⟨val, RefState.Exclusive⟩, ls, lm⟩ Op.dropMut
              = ⟨⟨val, RefState.Unshared⟩, ls, lm - 1⟩ := by
            simp [step, hlm, dropMutRefGuard]
          rw [hred]
          simp only [Inv] at h ⊢
          all_goals omega

theorem inv_run {T : Type} (v : T) (ops : List Op)
    (hb : sharedBoundedB (World.init v) ops = true) :
    Inv (run (World.init v) ops) := by
  have hgen : ∀ (l : List Op) (w : World T), Inv w → sharedBoundedB w l = true →
      Inv (run w l) := by
    intro l
    induction l with
    | nil => exact fun w hw _ => hw
    | cons op rest ih =>
        intro w hw hbw
        simp only [sharedBoundedB, Bool.and_eq_true, decide_eq_true_eq] at hbw
        exact ih (step w op) (inv_step hw hbw.1 op (sharedBoundedB_head hbw.2)) hbw.2
  exact hgen ops (World.init v) ⟨rfl, rfl⟩ hb

theorem run_append {T : Type} (w : World T) (l1 l2 : List Op) :
    run w (l1 ++ l2) = run (run w l1) l2 := by
  simp [run, List.foldl_append]

theorem run_replicate_borrow {T : Type} (v : T) (k : Nat) (hk : 1 ≤ k) :
    run (World.init v) (List.replicate k Op.borrow)
      = ⟨⟨v, RefState.Shared (wrap32 (k : Int))⟩, k, 0⟩ := by
  induction k with
  | zero => exact absurd hk (by omega)
  | succ k ih =>
      rcases Nat.eq_zero_or_pos k with h0 | hpos
      · subst h0
        have hrun : run (World.init v) (List.replicate (0 + 1) Op.borrow)
            = ⟨⟨v, RefState.Shared 1⟩, 1, 0⟩ := rfl
        rw [hrun]
        have hw1 : ((0 + 1 : Nat) : Int) = 1 := by norm_num
        rw [hw1]
        rw [show wrap32 1 = 1 from by decide]
      · have hrec := ih hpos
        rw [List.replicate_succ', run_append, hrec]
        show step ⟨⟨v, RefState.Shared (wrap32 (k : Int))⟩, k, 0⟩ Op.borrow = _
        show (⟨⟨v, RefState.Shared (wrap32 (wrap32 (k : Int) + 1))⟩, k + 1, 0⟩ : World T)
            = ⟨⟨v, RefState.Shared (wrap32 ((k + 1 : Nat) : Int))⟩, k + 1, 0⟩
        rw [wrap32_add_one]
        have hc : ((k + 1 : Nat) : Int) = (k : Int) + 1 := by push_cast; ring
        rw [hc]

/-! ### Claims about `RefCell` -/

/-- C1 (amended): `borrow()` follows the state machine: from `Unshared` it
moves to `Shared(1)` and returns a guard; from `Shared(n)` with
`n < i32::MAX` it moves to `Shared(n+1)` and returns a guard; at
`Shared(i32::MAX)` it still returns a guard but the i32 count silently
wraps to `i32::MIN`; from `Exclusive` it returns no guard and the state
stays `Exclusive`; and two sequential `borrow()` calls on a fresh
`RefCell` both succeed and leave the state `Shared(2)`. -/
theorem borrow_state_machine (T : Type) (v : T) (n : Int) :
    (RefCell.mk v RefState.Unshared).borrow
        = (some (), RefCell.mk v (RefState.Shared 1)) ∧
    (-(2 ^ 31) ≤ n → n < 2 ^ 31 - 1 →
      (RefCell.mk v (RefState.Shared n)).borrow
        = (some (), RefCell.mk v (RefState.Shared (n + 1)))) ∧
    (RefCell.mk v (RefState.Shared (2 ^ 31 - 1))).borrow
        = (some (), RefCell.mk v (RefState.Shared (-(2 ^ 31)))) ∧
    (RefCell.mk v RefState.Exclusive).borrow
        = (none, RefCell.mk v RefState.Exclusive) ∧
    (RefCell.new v).borrow.1 = some () ∧
    (RefCell.new v).borrow.2.borrow.1 = some () ∧
    (RefCell.new v).borrow.2.borrow.2.state = RefState.Shared 2 := by
  refine ⟨rfl, fun hlo hhi => ?_, ?_, rfl, rfl, rfl, ?_⟩
  · show (some (), RefCell.mk v (RefState.Shared (wrap32 (n + 1))))
        = (some (), RefCell.mk v (RefState.Shared (n + 1)))
    rw [wrap32_id (n + 1) (by omega) (by omega)]
  · show (some (), RefCell.mk v (RefState.Shared (wrap32 (2 ^ 31 - 1 + 1))))
        = (some (), RefCell.mk v (RefState.Shared (-(2 ^ 31))))
    rw [show wrap32 (2 ^ 31 - 1 + 1) = -(2 ^ 31) from by decide]
  · show RefState.Shared (wrap32 (1 + 1)) = RefState.Shared 2
    rw [show wrap32 (1 + 1) = 2 from by decide]

/-- Witness for `borrow_state_machine` at a concrete in-range count. -/
theorem borrow_state_machine_witness :
    (RefCell.mk (0 : Int) (RefState.Shared 5)).borrow
      = (some (), RefCell.mk 0 (RefState.Shared (5 + 1))) :=
  (borrow_state_machine Int 0 5).2.1 (by norm_num) (by norm_num)

/-- Counterexample to C1 as stated: the state `Shared(i32::MAX)` is
reachable (2^31 - 1 borrows from a fresh cell), and `borrow()` there does
not set `Shared(n+1)`: the i32 count silently wraps to `i32::MIN`. -/
theorem borrow_overflow_cex :
    run (World.init (0 : Int)) (List.replicate (2 ^ 31 - 1) Op.borrow)
      = ⟨⟨0, RefState.Shared (2 ^ 31 - 1)⟩, 2 ^ 31 - 1, 0⟩ ∧
    (RefCell.mk (0 : Int) (RefState.Shared (2 ^ 31 - 1))).borrow
      = (some (), RefCell.mk 0 (RefState.Shared (-(2 ^ 31)))) ∧
    (-(2 ^ 31) : Int) ≠ 2 ^ 31 - 1 + 1 := by
  refine ⟨?_, ?_, by decide⟩
  · have h := run_replicate_borrow (0 : Int) (2 ^ 31 - 1) (by norm_num)
    rw [h]
    rw [show wrap32 (((2 ^ 31 - 1 : Nat) : Int)) = 2 ^ 31 - 1 from by decide]
  · show (some (), RefCell.mk (0 : Int) (RefState.Shared (wrap32 (2 ^ 31 - 1 + 1))))
        = (some (), RefCell.mk 0 (RefState.Shared (-(2 ^ 31))))
    rw [show wrap32 (2 ^ 31 - 1 + 1) = -(2 ^ 31) from by decide]

/-- C2: `borrow_mut()` returns an exclusive guard exactly from `Unshared`
(moving to `Exclusive`); from `Shared(n)` or `Exclusive` it returns `none`
and leaves both the borrow state and the stored value unchanged. -/
theorem borrow_mut_spec (T : Type) (v : T) (n : Int) :
    (RefCell.mk v RefState.Unshared).borrow_mut
        = (some (), RefCell.mk v RefState.Exclusive) ∧
    (RefCell.mk v (RefState.Shared n)).borrow_mut
        = (none, RefCell.mk v (RefState.Shared n)) ∧
    (RefCell.mk v RefState.Exclusive).borrow_mut
        = (none, RefCell.mk v RefState.Exclusive) :=
  ⟨rfl, rfl, rfl⟩

/-- C3 (amended): releasing a shared guard sends `Shared(1)` to `Unshared`
and `Shared(n)`, `1 < n ≤ i32::MAX`, to `Shared(n-1)`, and is the fatal
`unreachable!()` (`none`) on `Unshared`/`Exclusive`; releasing an
exclusive guard sends `Exclusive` to `Unshared` and is fatal on every
other state; and on every world reachable by `borrow`/`borrow_mut`/guard
drops from `RefCell::new` during which live shared guards stay below 2^31
(so the i32 count cannot overflow), a live guard's release never hits the
fatal branch. -/
theorem guard_release_spec (T : Type) (v : T) (n : Int) (ops : List Op)
    (hb : sharedBoundedB (World.init v) ops = true) :
    dropRefGuard (RefState.Shared 1) = some RefState.Unshared ∧
    (1 < n → n ≤ 2 ^ 31 - 1 →
      dropRefGuard (RefState.Shared n) = some (RefState.Shared (n - 1))) ∧
    dropRefGuard RefState.Unshared = none ∧
    dropRefGuard RefState.Exclusive = none ∧
    dropMutRefGuard RefState.Exclusive = some RefState.Unshared ∧
    dropMutRefGuard RefState.Unshared = none ∧
    dropMutRefGuard (RefState.Shared n) = none ∧
    (1 ≤ (run (World.init v) ops).liveShared →
      (dropRefGuard (run (World.init v) ops).cell.state).isSome = true) ∧
    (1 ≤ (run (World.init v) ops).liveMut →
      (dropMutRefGuard (run (World.init v) ops).cell.state).isSome = true) := by
  have hinv := inv_run v ops hb
  refine ⟨rfl, fun hn1 hn2 => ?_, rfl, rfl, rfl, rfl, rfl, fun hls => ?_, fun hlm => ?_⟩
  · have hne : ¬ (n = 1) := by omega
    rw [show dropRefGuard (RefState.Shared n)
        = some (RefState.Shared (wrap32 (n - 1))) from by simp [dropRefGuard, hne]]
    rw [wrap32_id (n - 1) (by omega) (by omega)]
  · rcases hst : (run (World.init v) ops).cell.state with _ | m | _ <;>
      simp only [Inv, hst] at hinv
    · omega
    · by_cases hm : m = 1 <;> simp [dropRefGuard, hm]
    · omega
  · rcases hst : (run (World.init v) ops).cell.state with _ | m | _ <;>
      simp only [Inv, hst] at hinv
    · omega
    · omega
    · simp [dropMutRefGuard]

/-- C4 (amended): on every world reachable from `RefCell::new` by
`borrow`/`borrow_mut`/guard drops during which live shared guards stay
below 2^31 (so the i32 count cannot overflow), the recorded state is
`Unshared` iff no guard is live, `Shared(n)` iff exactly `n ≥ 1` shared
guards and no exclusive guard are live, and `Exclusive` iff exactly one
exclusive guard and no shared guard are live — mutually exclusive cases. -/
theorem refcell_state_invariant (T : Type) (v : T) (ops : List Op)
    (hb : sharedBoundedB (World.init v) ops = true) :
    ((run (World.init v) ops).cell.state = RefState.Unshared ↔
      (run (World.init v) ops).liveShared = 0 ∧ (run (World.init v) ops).liveMut = 0) ∧
    (∀ n : Int, (run (World.init v) ops).cell.state = RefState.Shared n ↔
      n = ((run (World.init v) ops).liveShared : Int) ∧
      1 ≤ (run (World.init v) ops).liveShared ∧
      (run (World.init v) ops).liveMut = 0) ∧
    ((run (World.init v) ops).cell.state = RefState.Exclusive ↔
      (run (World.init v) ops).liveShared = 0 ∧ (run (World.init v) ops).liveMut = 1) := by
  have hinv := inv_run v ops hb
  rcases hst : (run (World.init v) ops).cell.state with _ | m | _ <;>
    simp only [Inv, hst] at hinv
  · obtain ⟨hA, hB⟩ := hinv
    refine ⟨⟨fun _ => ⟨hA, hB⟩, fun _ => rfl⟩, fun n => ⟨fun hx => by simp at hx, ?_⟩,
      ⟨fun hx => by simp at hx, ?_⟩⟩
    · rintro ⟨_, h1, _⟩
      exfalso
      omega
    · rintro ⟨_, h2⟩
      exfalso
      omega
  · obtain ⟨hA, hB, hC⟩ := hinv
    refine ⟨⟨fun hx => by simp at hx, ?_⟩, fun n => ⟨fun hx => ?_, fun hx => ?_⟩,
      ⟨fun hx => by simp at hx, ?_⟩⟩
    · rintro ⟨h1, _⟩
      exfalso
      omega
    · injection hx with hnm
      subst hnm
      exact ⟨hA, hB, hC⟩
    · obtain ⟨h1, _, _⟩ := hx
      have hmn : m = n := by omega
      rw [hmn]
    · rintro ⟨_, h2⟩
      exfalso
      omega
  · obtain ⟨hA, hB⟩ := hinv
    refine ⟨⟨fun hx => by simp at hx, ?_⟩, fun n => ⟨fun hx => by simp at hx, ?_⟩,
      ⟨fun _ => ⟨hA, hB⟩, fun _ => rfl⟩⟩
    · rintro ⟨_, h2⟩
      exfalso
      omega
    · rintro ⟨_, h1, _⟩
      exfalso
      omega

/-- C7: after `RefCell::new(32)`, `borrow_mut()` succeeds giving state
`Exclusive`; writing `100` through the exclusive guard then releasing it
leaves the state `Unshared` with the value `100`; a subsequent `borrow()`
succeeds and reading through the shared guard yields `100`. -/
theorem refcell_write_read_scenario :
    (RefCell.new (32 : Int)).borrow_mut
        = (some (), RefCell.mk 32 RefState.Exclusive) ∧
    MutRefGuard.write (RefCell.mk (32 : Int) RefState.Exclusive) 100
        = RefCell.mk 100 RefState.Exclusive ∧
    dropMutRefGuard (RefCell.mk (100 : Int) RefState.Exclusive).state
        = some RefState.Unshared ∧
    (RefCell.mk (100 : Int) RefState.Unshared).borrow
        = (some (), RefCell.mk 100 (RefState.Shared 1)) ∧
    RefGuard.read (RefCell.mk (100 : Int) (RefState.Shared 1)) = 100 :=
  ⟨rfl, rfl, rfl, rfl, rfl⟩

/-- C8: `Cell::set(x)` immediately followed by `Cell::get()` returns `x`;
`set` unconditionally overwrites the slot (total, no failure mode) and
`get` copies out the current value. -/
theorem cell_set_get (T : Type) (c : Cell T) (x : T) :
    (c.set x).get = x ∧ c.set x = Cell.mk x ∧ (Cell.new x).get = x :=
  ⟨rfl, rfl, rfl⟩

/-- C10: `RefGuard::new` and `MutRefGuard::new` neither check nor update
the borrow state (they return the captured cell untouched), so a guard
obtained from them without a successful borrow, dropped on a fresh
(`Unshared`) `RefCell`, reaches the fatal `unreachable!()` branch. -/
theorem rogue_guard_fatal (T : Type) (v : T) (c : RefCell T) :
    RefGuard.new c = c ∧
    MutRefGuard.new c = c ∧
    (MutRefGuard.new (RefCell.new v)).state = RefState.Unshared ∧
    dropMutRefGuard (MutRefGuard.new (RefCell.new v)).state = none ∧
    (RefGuard.new (RefCell.new v)).state = RefState.Unshared ∧
    dropRefGuard (RefGuard.new (RefCell.new v)).state = none :=
  ⟨rfl, rfl, rfl, rfl, rfl, rfl⟩

/-- Witness for `guard_release_spec` at concrete inputs. -/
theorem guard_release_spec_witness :
    dropRefGuard (RefState.Shared 2) = some (RefState.Shared (2 - 1)) ∧
    (dropRefGuard (run (World.init (0 : Int)) [Op.borrow]).cell.state).isSome = true :=
  ⟨(guard_release_spec Int 0 2 [] (by decide)).2.1 (by norm_num) (by norm_num),
   (guard_release_spec Int 0 2 [Op.borrow] (by decide)).2.2.2.2.2.2.2.1 (by decide)⟩

/-- Counterexample to C3's no-fatal part as stated: 2^32 + 1 borrows wrap
the i32 count back to `Shared(1)` while 2^32 + 1 shared guards are live;
one legitimate release then records `Unshared`, and the next live guard's
release observes `Unshared` — the fatal `unreachable!()` branch — with no
rogue guard involved. -/
theorem guard_release_fatal_cex :
    run (World.init (0 : Int)) (List.replicate (2 ^ 32 + 1) Op.borrow ++ [Op.dropShared])
      = ⟨⟨0, RefState.Unshared⟩, 2 ^ 32, 0⟩ ∧
    1 ≤ (run (World.init (0 : Int))
      (List.replicate (2 ^ 32 + 1) Op.borrow ++ [Op.dropShared])).liveShared ∧
    (dropRefGuard (run (World.init (0 : Int))
      (List.replicate (2 ^ 32 + 1) Op.borrow ++ [Op.dropShared])).cell.state).isSome
      = false := by
  have hrun : run (World.init (0 : Int))
      (List.replicate (2 ^ 32 + 1) Op.borrow ++ [Op.dropShared])
      = ⟨⟨0, RefState.Unshared⟩, 2 ^ 32, 0⟩ := by
    rw [run_append]
    have h := run_replicate_borrow (0 : Int) (2 ^ 32 + 1) (by norm_num)
    rw [h]
    rw [show wrap32 (((2 ^ 32 + 1 : Nat) : Int)) = 1 from by decide]
    show step ⟨⟨(0 : Int), RefState.Shared 1⟩, 2 ^ 32 + 1, 0⟩ Op.dropShared
        = ⟨⟨0, RefState.Unshared⟩, 2 ^ 32, 0⟩
    have hls : ¬ ((2 ^ 32 + 1 : Nat) = 0) := by norm_num
    simp [step, hls, dropRefGuard]
  refine ⟨hrun, ?_, ?_⟩
  · rw [hrun]
    show 1 ≤ (2 ^ 32 : Nat)
    norm_num
  · rw [hrun]
    rfl

/-- Witness for `refcell_state_invariant` on a concrete bounded run. -/
theorem refcell_state_invariant_witness :
    sharedBoundedB (World.init (0 : Int)) [Op.borrow] = true ∧
    ((run (World.init (0 : Int)) [Op.borrow]).cell.state = RefState.Shared 1 ↔
      (1 : Int) = ((run (World.init (0 : Int)) [Op.borrow]).liveShared : Int) ∧
      1 ≤ (run (World.init (0 : Int)) [Op.borrow]).liveShared ∧
      (run (World.init (0 : Int)) [Op.borrow]).liveMut = 0) :=
  ⟨by decide, (refcell_state_invariant Int 0 [Op.borrow] (by decide)).2.1 1⟩

/-- Counterexample to C4 as stated: after 2^31 borrows the i32 count has
wrapped, so a reachable world records `Shared(-2^31)` while 2^31 shared
guards are live — neither `n ≥ 1` nor `n = number of live shared guards`
holds there. -/
theorem refcell_invariant_overflow_cex :
    run (World.init (0 : Int)) (List.replicate (2 ^ 31) Op.borrow)
      = ⟨⟨0, RefState.Shared (-(2 ^ 31))⟩, 2 ^ 31, 0⟩ ∧
    ¬ (1 ≤ (-(2 ^ 31) : Int)) ∧
    (-(2 ^ 31) : Int) ≠ ((2 ^ 31 : Nat) : Int) := by
  refine ⟨?_, by decide, by decide⟩
  have h := run_replicate_borrow (0 : Int) (2 ^ 31) (by norm_num)
  rw [h]
  rw [show wrap32 (((2 ^ 31 : Nat) : Int)) = -(2 ^ 31) from by decide]

/-! ### Facts about the `Rc` model -/

theorem U64_eq : U64 = 18446744073709551616 := by
  norm_num [U64]

theorem U64_pos : 0 < U64 := by
  norm_num [U64]

theorem liveBoundedB_head {w : RcWorld} {ops : List RcOp}
    (h : liveBoundedB w ops = true) : w.live < U64 := by
  cases ops with
  | nil => simpa [liveBoundedB] using h
  | cons op rest =>
      simp only [liveBoundedB, Bool.and_eq_true, decide_eq_true_eq] at h
      exact h.1

theorem rcInv_step {w : RcWorld} (h : RcInv w) (op : RcOp)
    (hpost : (stepRc w op).live < U64) : RcInv (stepRc w op) := by
  obtain ⟨refc, lv, al, fr⟩ := w
  obtain ⟨h1, h2, h3⟩ := h
  cases op
  case clone =>
    by_cases hl : lv = 0
    · have hred : stepRc ⟨refc, lv, al, fr⟩ RcOp.clone = ⟨refc, lv, al, fr⟩ := by
        simp [stepRc, hl]
      rw [hred]
      exact ⟨h1, h2, h3⟩
    · have hred : stepRc ⟨refc, lv, al, fr⟩ RcOp.clone
          = ⟨(refc + 1) % U64, lv + 1, al, fr⟩ := by
        simp [stepRc, hl]
      rw [hred] at hpost ⊢
      have hpost' : lv + 1 < U64 := hpost
      cases al
      · have hlv : lv = 0 := h2 rfl
        exact absurd hlv hl
      · have hrc : refc = lv ∧ 1 ≤ lv := h1 rfl
        refine ⟨fun _ => ⟨?_, show 1 ≤ lv + 1 by omega⟩, fun hx => by simp at hx, h3⟩
        show (refc + 1) % U64 = lv + 1
        rw [hrc.1]
        exact Nat.mod_eq_of_lt hpost'
  case drop =>
    by_cases hl : lv = 0
    · have hred : stepRc ⟨refc, lv, al, fr⟩ RcOp.drop = ⟨refc, lv, al, fr⟩ := by
        simp [stepRc, hl]
      rw [hred]
      exact ⟨h1, h2, h3⟩
    · cases al
      · have hlv : lv = 0 := h2 rfl
        exact absurd hlv hl
      · have hrc : refc = lv ∧ 1 ≤ lv := h1 rfl
        have h3' : fr = 0 := h3
        by_cases hc : refc = 1
        · have hred : stepRc ⟨refc, lv, true, fr⟩ RcOp.drop
              = ⟨refc, lv - 1, false, fr + 1⟩ := by
            simp [stepRc, hl, hc]
          rw [hred]
          refine ⟨fun hx => by simp at hx, fun _ => ?_, ?_⟩
          · show lv - 1 = 0
            omega
          · show fr + 1 = 1
            omega
        · have hred : stepRc ⟨refc, lv, true, fr⟩ RcOp.drop
              = ⟨(refc + (U64 - 1)) % U64, lv - 1, true, fr⟩ := by
            simp [stepRc, hl, hc]
          rw [hred] at hpost ⊢
          have hpost' : lv - 1 < U64 := hpost
          refine ⟨fun _ => ⟨?_, ?_⟩, fun hx => by simp at hx, h3⟩
          · show (refc + (U64 - 1)) % U64 = lv - 1
            have hsplit : lv + (U64 - 1) = (lv - 1) + U64 := by
              have := U64_pos
              omega
            rw [hrc.1, hsplit, Nat.add_mod_right]
            exact Nat.mod_eq_of_lt hpost'
          · show 1 ≤ lv - 1
            omega

theorem rcInv_run {w : RcWorld} (h : RcInv w) (ops : List RcOp)
    (hb : liveBoundedB w ops = true) : RcInv (runRcFrom w ops) := by
  induction ops generalizing w with
  | nil => exact h
  | cons op rest ih =>
      simp only [liveBoundedB, Bool.and_eq_true] at hb
      exact ih (rcInv_step h op (liveBoundedB_head hb.2)) hb.2

theorem runRcFrom_replicate_clone (k : Nat) (w : RcWorld) (h1 : 1 ≤ w.live)
    (h2 : w.refcount < U64) :
    runRcFrom w (List.replicate k RcOp.clone)
      = ⟨(w.refcount + k) % U64, w.live + k, w.allocated, w.frees⟩ := by
  induction k generalizing w with
  | zero =>
      obtain ⟨refc, lv, al, fr⟩ := w
      have h2' : refc < U64 := h2
      show (⟨refc, lv, al, fr⟩ : RcWorld) = ⟨(refc + 0) % U64, lv + 0, al, fr⟩
      simp [Nat.mod_eq_of_lt h2']
  | succ k ih =>
      obtain ⟨refc, lv, al, fr⟩ := w
      have h1' : 1 ≤ lv := h1
      have h2' : refc < U64 := h2
      have hl : ¬ (lv = 0) := by omega
      have hstep : stepRc ⟨refc, lv, al, fr⟩ RcOp.clone
          = ⟨(refc + 1) % U64, lv + 1, al, fr⟩ := by
        simp [stepRc, hl]
      have hrec := ih ⟨(refc + 1) % U64, lv + 1, al, fr⟩
        (show 1 ≤ lv + 1 by omega) (show (refc + 1) % U64 < U64 from Nat.mod_lt _ U64_pos)
      show runRcFrom ⟨refc, lv, al, fr⟩ (List.replicate (k + 1) RcOp.clone)
          = ⟨(refc + (k + 1)) % U64, lv + (k + 1), al, fr⟩
      rw [List.replicate_succ]
      show runRcFrom (stepRc ⟨refc, lv, al, fr⟩ RcOp.clone) (List.replicate k RcOp.clone) = _
      rw [hstep]
      refine hrec.trans ?_
      show (⟨((refc + 1) % U64 + k) % U64, lv + 1 + k, al, fr⟩ : RcWorld)
          = ⟨(refc + (k + 1)) % U64, lv + (k + 1), al, fr⟩
      have e1 : refc + 1 + k = refc + (k + 1) := by omega
      have e2 : lv + 1 + k = lv + (k + 1) := by omega
      rw [Nat.mod_add_mod, e1, e2]

theorem runRc_replicate_clone (k : Nat) :
    runRc (List.replicate k RcOp.clone) = ⟨(1 + k) % U64, 1 + k, true, 0⟩ :=
  runRcFrom_replicate_clone k RcWorld.init (le_refl 1) (show (1 : Nat) < U64 by
    rw [U64_eq]
    omega)

/-! ### Claims about `Rc` -/

/-- C5 (amended): for every sequence of clone/drop operations from
`Rc::new` during which the number of live handles stays below 2^64 (so
the `u64` refcount cannot overflow), the stored refcount equals the
number of live handles while the allocation is live, once the allocation
is gone no handle remains, and the backing `Box` was reclaimed exactly
once, exactly when the allocation disappeared — on the drop that observed
refcount 1, the last remaining handle. -/
theorem rc_refcount_invariant (ops : List RcOp)
    (h : liveBoundedB RcWorld.init ops = true) :
    ((runRc ops).allocated = true →
      (runRc ops).refcount = (runRc ops).live ∧ 1 ≤ (runRc ops).live) ∧
    ((runRc ops).allocated = false → (runRc ops).live = 0) ∧
    (runRc ops).frees = (if (runRc ops).allocated then 0 else 1) := by
  have hinit : RcInv RcWorld.init :=
    ⟨fun _ => ⟨rfl, le_refl 1⟩, fun hx => by simp [RcWorld.init] at hx, rfl⟩
  exact rcInv_run hinit ops h

/-- Witness for `rc_refcount_invariant` on a concrete run. -/
theorem rc_refcount_invariant_witness :
    liveBoundedB RcWorld.init [RcOp.clone, RcOp.drop, RcOp.drop] = true ∧
    (runRc [RcOp.clone, RcOp.drop, RcOp.drop]).frees
      = (if (runRc [RcOp.clone, RcOp.drop, RcOp.drop]).allocated then 0 else 1) :=
  ⟨by decide, (rc_refcount_invariant [RcOp.clone, RcOp.drop, RcOp.drop] (by decide)).2.2⟩

theorem runRc_append (l1 l2 : List RcOp) :
    runRc (l1 ++ l2) = runRcFrom (runRc l1) l2 := by
  simp [runRc, runRcFrom, List.foldl_append]

theorem stepRc_drop_refcount_one (w : RcWorld) (hl : w.live ≠ 0)
    (hc : w.refcount = 1) :
    stepRc w RcOp.drop = ⟨w.refcount, w.live - 1, false, w.frees + 1⟩ := by
  obtain ⟨refc, lv, al, fr⟩ := w
  have hl' : ¬ (lv = 0) := hl
  have hc' : refc = 1 := hc
  show stepRc ⟨refc, lv, al, fr⟩ RcOp.drop = ⟨refc, lv - 1, false, fr + 1⟩
  simp [stepRc, hl', hc']

/-- Counterexample to C5 as stated: after 2^64 - 1 clones the `u64`
refcount has silently wrapped, so a reachable state stores a refcount
different from its number of live handles; and one further clone plus a
drop makes that drop observe refcount 1 and reclaim the allocation while
2^64 handles are still live. -/
theorem rc_refcount_overflow_cex :
    (runRc (List.replicate (U64 - 1) RcOp.clone)).allocated = true ∧
    (runRc (List.replicate (U64 - 1) RcOp.clone)).refcount
        ≠ (runRc (List.replicate (U64 - 1) RcOp.clone)).live ∧
    runRc (List.replicate U64 RcOp.clone ++ [RcOp.drop]) = ⟨1, U64, false, 1⟩ ∧
    0 < U64 := by
  have h1 := runRc_replicate_clone (U64 - 1)
  have e1 : 1 + (U64 - 1) = U64 := by
    rw [U64_eq]
  rw [e1, Nat.mod_self] at h1
  refine ⟨by rw [h1], ?_, ?_, U64_pos⟩
  · rw [h1]
    show (0 : Nat) ≠ U64
    have := U64_pos
    omega
  · have h2 := runRc_replicate_clone U64
    have e3 : (1 + U64) % U64 = 1 := by
      rw [U64_eq]
    rw [e3] at h2
    rw [runRc_append, h2]
    have hstep := stepRc_drop_refcount_one ⟨1, 1 + U64, true, 0⟩
      (show (1 + U64 : Nat) ≠ 0 by omega) rfl
    show stepRc ⟨1, 1 + U64, true, 0⟩ RcOp.drop = ⟨1, U64, false, 1⟩
    rw [hstep]
    show (⟨1, 1 + U64 - 1, false, 0 + 1⟩ : RcWorld) = ⟨1, U64, false, 1⟩
    congr 1

/-- C6: `Rc`'s drop reads the current refcount `c`; if `c == 1` it
reclaims the allocation without writing the count first, otherwise it
writes `c - 1` and leaves the allocation intact; and in the spec's
scenario (`Rc::new`, two clones to refcount 3, two drops to refcount 1
with no release) the release happens exactly on the drop of the last
handle. -/
theorem rc_drop_spec (w : RcWorld) (hlive : 1 ≤ w.live) :
    (w.refcount = 1 →
      stepRc w RcOp.drop = ⟨w.refcount, w.live - 1, false, w.frees + 1⟩) ∧
    (w.refcount ≠ 1 → 1 ≤ w.refcount → w.refcount < U64 →
      stepRc w RcOp.drop = ⟨w.refcount - 1, w.live - 1, w.allocated, w.frees⟩) ∧
    runRc [RcOp.clone, RcOp.clone] = ⟨3, 3, true, 0⟩ ∧
    runRc [RcOp.clone, RcOp.clone, RcOp.drop, RcOp.drop] = ⟨1, 1, true, 0⟩ ∧
    runRc [RcOp.clone, RcOp.clone, RcOp.drop, RcOp.drop, RcOp.drop]
      = ⟨1, 0, false, 1⟩ := by
  obtain ⟨refc, lv, al, fr⟩ := w
  have hlive' : 1 ≤ lv := hlive
  have hl : ¬ (lv = 0) := by omega
  refine ⟨fun hc => ?_, fun hc h1 h2 => ?_, by decide, by decide, by decide⟩
  · have hc' : refc = 1 := hc
    show stepRc ⟨refc, lv, al, fr⟩ RcOp.drop = ⟨refc, lv - 1, false, fr + 1⟩
    simp [stepRc, hl, hc']
  · have hc' : ¬ (refc = 1) := hc
    have h1' : 1 ≤ refc := h1
    have h2' : refc < U64 := h2
    show stepRc ⟨refc, lv, al, fr⟩ RcOp.drop = ⟨refc - 1, lv - 1, al, fr⟩
    have hstep : stepRc ⟨refc, lv, al, fr⟩ RcOp.drop
        = ⟨(refc + (U64 - 1)) % U64, lv - 1, al, fr⟩ := by
      simp [stepRc, hl, hc']
    rw [hstep]
    have hmod : (refc + (U64 - 1)) % U64 = refc - 1 := by
      have hsplit : refc + (U64 - 1) = (refc - 1) + U64 := by
        have := U64_pos
        omega
      rw [hsplit, Nat.add_mod_right]
      exact Nat.mod_eq_of_lt (by omega)
    rw [hmod]

/-- Witness for `rc_drop_spec` at concrete worlds. -/
theorem rc_drop_spec_witness :
    stepRc ⟨1, 1, true, 0⟩ RcOp.drop = ⟨1, 0, false, 1⟩ ∧
    stepRc ⟨3, 3, true, 0⟩ RcOp.drop = ⟨2, 2, true, 0⟩ :=
  ⟨(rc_drop_spec ⟨1, 1, true, 0⟩ (by decide)).1 rfl,
   (rc_drop_spec ⟨3, 3, true, 0⟩ (by decide)).2.1 (by decide) (by decide)
     (show (3 : Nat) < U64 by rw [U64_eq]; omega)⟩

/-- C9 (amended): `Rc::clone` performs no saturation, abort, or widening
check before updating the counter: with any live handle it writes
`(c + 1) mod 2^64` and adds one handle, so at the maximum `u64` value the
count silently wraps to `0` while a new handle is still returned. -/
theorem rc_clone_spec (w : RcWorld) (hlive : 1 ≤ w.live) :
    stepRc w RcOp.clone
      = ⟨(w.refcount + 1) % U64, w.live + 1, w.allocated, w.frees⟩ ∧
    (w.refcount = U64 - 1 →
      (stepRc w RcOp.clone).refcount = 0 ∧
      (stepRc w RcOp.clone).live = w.live + 1 ∧
      (stepRc w RcOp.clone).allocated = w.allocated) := by
  obtain ⟨refc, lv, al, fr⟩ := w
  have hlive' : 1 ≤ lv := hlive
  have hl : ¬ (lv = 0) := by omega
  have hstep : stepRc ⟨refc, lv, al, fr⟩ RcOp.clone
      = ⟨(refc + 1) % U64, lv + 1, al, fr⟩ := by
    simp [stepRc, hl]
  refine ⟨hstep, fun hc => ?_⟩
  have hc' : refc = U64 - 1 := hc
  subst hc'
  rw [hstep]
  refine ⟨?_, rfl, rfl⟩
  show (U64 - 1 + 1) % U64 = 0
  have hone : U64 - 1 + 1 = U64 := by
    have := U64_pos
    omega
  rw [hone, Nat.mod_self]

/-- Witness for `rc_clone_spec` at the maximum `u64` refcount. -/
theorem rc_clone_spec_witness :
    stepRc ⟨U64 - 1, 1, true, 0⟩ RcOp.clone
      = ⟨(U64 - 1 + 1) % U64, 1 + 1, true, 0⟩ ∧
    (stepRc ⟨U64 - 1, 1, true, 0⟩ RcOp.clone).refcount = 0 :=
  ⟨(rc_clone_spec ⟨U64 - 1, 1, true, 0⟩ (by decide)).1,
   ((rc_clone_spec ⟨U64 - 1, 1, true, 0⟩ (by decide)).2 rfl).1⟩

/-- Counterexample to C9's "the count is not silently wrapped": after
2^64 - 2 clones the reachable refcount is the `u64` maximum, and the next
clone writes 0 — the count silently wraps, with no abort and a new live
handle still added. -/
theorem rc_clone_silent_wrap_cex :
    runRc (List.replicate (U64 - 2) RcOp.clone) = ⟨U64 - 1, U64 - 1, true, 0⟩ ∧
    runRc (List.replicate (U64 - 1) RcOp.clone) = ⟨0, U64, true, 0⟩ := by
  have h1 := runRc_replicate_clone (U64 - 2)
  have h2 := runRc_replicate_clone (U64 - 1)
  have e1 : 1 + (U64 - 2) = U64 - 1 := by
    rw [U64_eq]
  have e2 : 1 + (U64 - 1) = U64 := by
    rw [U64_eq]
  rw [e1] at h1
  rw [e2, Nat.mod_self] at h2
  have e3 : (U64 - 1) % U64 = U64 - 1 := Nat.mod_eq_of_lt (by
    rw [U64_eq]
    omega)
  rw [e3] at h1
  exact ⟨h1, h2⟩

end LockFree
